import Mathlib

/-!
# Verification of the tinyclaw-trading orchestration layer

Shallow embedding of the orchestration core of the `tinyclaw-trading`
repository (retry wrapper, sliding-window rate limiter, team chain
orchestrator, heartbeat scheduler, invocation engine, Discord
notification sink, strategy activation) together with proofs of the
specification's testable properties.

Each definition is translated from the TypeScript/bash source file it
names; comments give the source location.
-/

namespace Tinyclaw

/-! ## Retry wrapper — `src/lib/retry.ts` -/

/-- The transient error patterns of `src/lib/retry.ts` (`TRANSIENT_PATTERNS`).
All regexes there are plain substring patterns; the seven textual ones carry
the `i` (case-insensitive) flag, the three numeric ones match digits where
case is irrelevant, so a case-insensitive substring test models all ten. -/
def TRANSIENT_PATTERNS : List String :=
  ["econnrefused", "econnreset", "etimedout", "epipe", "timeout",
   "network", "socket hang up", "503", "502", "429"]

/-- `pat` occurs in `hay` starting at position `i`. -/
def matchAt [BEq α] (hay pat : List α) (i : Nat) : Bool :=
  pat.isPrefixOf (hay.drop i)

/-- Substring occurrence test. -/
def containsSub [BEq α] (hay pat : List α) : Bool :=
  (List.range (hay.length + 1)).any (matchAt hay pat)

/-- ASCII lower-casing of one character code. -/
def lowerCode (n : Nat) : Nat :=
  if 65 ≤ n ∧ n ≤ 90 then n + 32 else n

/-- Character codes of a string, lower-cased. -/
def toCodes (s : String) : List Nat :=
  s.toList.map (fun c => lowerCode c.toNat)

/-- Case-insensitive substring test (regex `p.test(msg)` with the `i` flag). -/
def containsCI (msg pat : String) : Bool :=
  containsSub (toCodes msg) (toCodes pat)

/-- `isTransientError` from `src/lib/retry.ts`: an error is transient when
its message matches one of the fixed patterns. -/
def isTransientError (msg : String) : Bool :=
  TRANSIENT_PATTERNS.any (fun p => containsCI msg p)

/-- The loop of `withRetry` (`src/lib/retry.ts` lines 29-42) at the point
where `attempt` attempts have already been consumed and `remaining =
maxRetries - attempt` retries are still allowed.  The operation is modelled
as a function from the attempt number to its outcome; the result pairs the
final outcome with the list of back-off delays slept, in the order slept. -/
def withRetryGo (fn : Nat → Except String α) (baseDelayMs : Nat) :
    Nat → Nat → Except String α × List Nat × Nat
  | attempt, 0 => (fn attempt, [], 1)
  | attempt, remaining + 1 =>
    match fn attempt with
    | .ok v => (.ok v, [], 1)
    | .error e =>
      if isTransientError e then
        let rest := withRetryGo fn baseDelayMs (attempt + 1) remaining
        (rest.1, baseDelayMs * 2 ^ attempt :: rest.2.1, rest.2.2 + 1)
      else
        (.error e, [], 1)

/-- `withRetry(fn, {maxRetries, baseDelayMs})` from `src/lib/retry.ts`:
runs the loop from attempt 0 with `maxRetries` retries allowed.  The three
components of the result are the final outcome, the list of back-off delays
slept (in order), and the number of times the operation was attempted. -/
def withRetry (fn : Nat → Except String α) (maxRetries baseDelayMs : Nat) :
    Except String α × List Nat × Nat :=
  withRetryGo fn baseDelayMs 0 maxRetries

/-! ## Sliding-window rate limiter — `checkRateLimit`
(`src/unnamed/part_004` lines 65-87, identical copy in the trading command
handler document of `src/lib/invoke.ts`). -/

/-- `RATE_LIMIT_WINDOW_MS = 60_000`. -/
def RATE_LIMIT_WINDOW_MS : Nat := 60000

/-- `RATE_LIMIT_MAX = 5`. -/
def RATE_LIMIT_MAX : Nat := 5

/-- The eviction `while` loop of `checkRateLimit`: drop leading timestamps
`t` with `t <= now - RATE_LIMIT_WINDOW_MS` (written additively, which is the
JS comparison on integers). -/
def evictExpired (now : Nat) : List Nat → List Nat
  | [] => []
  | t :: rest =>
    if t + RATE_LIMIT_WINDOW_MS ≤ now then evictExpired now rest else t :: rest

/-- `checkRateLimit` from `src/unnamed/part_004`: evict expired entries,
reject when the remaining count is at least `RATE_LIMIT_MAX`, otherwise
record `now` and accept.  The timestamp list is the module-level
`claudeSpawnTimestamps` array, oldest first; the result pairs the returned
boolean with the array contents after the call. -/
def checkRateLimit (now : Nat) (timestamps : List Nat) : Bool × List Nat :=
  let ts := evictExpired now timestamps
  if RATE_LIMIT_MAX ≤ ts.length then
    (false, ts)
  else
    (true, ts ++ [now])

/-! ## Heartbeat scheduler — heartbeat loop embedded in
`src/plugins/trading-db/state.ts` (bash, tick loop lines 178-253 and
`set_last_heartbeat` lines 123-127). -/

/-- Handling of one agent on one heartbeat tick.  `ELAPSED=$((NOW - LAST))`;
when `ELAPSED < INTERVAL` the agent is skipped (`continue`), otherwise the
heartbeat fires and — unconditionally, after both the script and the claude
paths, even when the fire failed (`|| true` swallows script failures) —
`set_last_heartbeat` records the current time.  Times are epoch seconds;
bash arithmetic is signed, hence `Int`.  `fireOk` reports whether the fire
succeeded; it does not influence the record update.  The result pairs
"did the agent fire" with the agent's heartbeat record after the tick. -/
def heartbeatTickAgent (now last interval : Int) (fireOk : Bool) : Bool × Int :=
  if now - last < interval then (false, last) else (true, now)

/-! ## Team chain orchestrator — modelled from the spec (§4.3)

The queue processor that drives team chains is not among the source files;
only its event consumer (the team visualizer) and the event vocabulary are.
The chain executor below is therefore modelled from the specification. -/

/-- Events emitted during one chain run (spec §3 "Event" and §4.3). -/
inductive ChainEvent where
  | stepStarted (agentId : String) (step : Nat)
  | stepDone (agentId : String) (step : Nat)
  | handoff (fromAgent toAgent : String) (step : Nat)
  | chainEnded (members : List String)
deriving DecidableEq

/-- Modelled from the spec: the per-member loop of the Team Chain
Orchestrator (§4.3), which is missing from the source files.  For each
member in order: emit step-started, invoke the agent on the running current
message, emit step-done, and — when another member follows — emit a handoff
event carrying (from, to, step index) before advancing.  `i` is the current
step index; the result pairs the emitted events with the final output. -/
def runChainGo (invoke : String → String → String) :
    List String → String → Nat → List ChainEvent × String
  | [], msg, _ => ([], msg)
  | [a], msg, i => ([.stepStarted a i, .stepDone a i], invoke a msg)
  | a :: b :: rest, msg, i =>
    let out := invoke a msg
    let next := runChainGo invoke (b :: rest) out (i + 1)
    (.stepStarted a i :: .stepDone a i :: .handoff a b i :: next.1, next.2)

/-- Modelled from the spec: one chain execution (§4.3), which is missing
from the source files.  Runs the member loop from step 0 and terminally
emits a chain-ended event carrying the full member list; the final member's
output is the chain's response. -/
def runChain (invoke : String → String → String) (members : List String)
    (msg : String) : List ChainEvent × String :=
  let run := runChainGo invoke members msg 0
  (run.1 ++ [.chainEnded members], run.2)

/-- Step-done event recognizer. -/
def isStepDone : ChainEvent → Bool
  | .stepDone _ _ => true
  | _ => false

/-- Handoff event recognizer. -/
def isHandoff : ChainEvent → Bool
  | .handoff _ _ _ => true
  | _ => false

/-- Chain-ended event recognizer. -/
def isChainEnded : ChainEvent → Bool
  | .chainEnded _ => true
  | _ => false

/-- Agent and step index of a step-done event. -/
def stepDoneOf : ChainEvent → Option (String × Nat)
  | .stepDone a i => some (a, i)
  | _ => none

/-- Source, target and step index of a handoff event. -/
def handoffOf : ChainEvent → Option (String × String × Nat)
  | .handoff a b i => some (a, b, i)
  | _ => none

/-! ## Invocation engine — `src/lib/invoke.ts` -/

/-- JS truthiness of an optional string (`undefined` and `""` are falsy). -/
def truthy : Option String → Bool
  | some s => s ≠ ""
  | none => false

/-- JS whitespace trim on a character list (both ends). -/
def trimChars (l : List Char) : List Char :=
  ((l.dropWhile Char.isWhitespace).reverse.dropWhile Char.isWhitespace).reverse

/-- `String.prototype.trim` as used by `runCommand` and `runCommandRemote`. -/
def jsTrim (s : String) : String :=
  ⟨trimChars s.data⟩

/-- The `close` handler of `runCommand` (`src/lib/invoke.ts` lines 47-56):
exit code 0 resolves with the captured stdout; otherwise the rejection
message is the trimmed stderr, or `Command exited with code N` when the
trimmed stderr is empty (`stderr.trim() || ...`). -/
def runCommandClose (code : Int) (stdout stderr : String) : Except String String :=
  if code = 0 then .ok stdout
  else if jsTrim stderr ≠ "" then .error (jsTrim stderr)
  else .error ("Command exited with code " ++ toString code)

/-- `CLAUDE_MODEL_IDS` from the types module (`src/lib/types`). -/
def CLAUDE_MODEL_IDS : List (String × String) :=
  [("sonnet", "claude-sonnet-4-5"), ("opus", "claude-opus-4-6"),
   ("claude-sonnet-4-5", "claude-sonnet-4-5"),
   ("claude-opus-4-6", "claude-opus-4-6")]

/-- `CODEX_MODEL_IDS` from the types module (`src/lib/types`). -/
def CODEX_MODEL_IDS : List (String × String) :=
  [("gpt-5.2", "gpt-5.2"), ("gpt-5.3-codex", "gpt-5.3-codex")]

/-- Modelled from the spec: `resolveClaudeModel` lives in `src/lib/config.ts`,
which is not among the source files.  Per §4.2 the model identifier is
resolved through the static lookup table and "an unrecognized short name is
passed through unresolved". -/
def resolveClaudeModel (model : String) : String :=
  ((CLAUDE_MODEL_IDS.find? (fun p => p.1 == model)).map (fun p => p.2)).getD model

/-- Modelled from the spec: `resolveCodexModel` lives in `src/lib/config.ts`,
which is not among the source files; same lookup-with-passthrough contract
over the Codex table. -/
def resolveCodexModel (model : String) : String :=
  ((CODEX_MODEL_IDS.find? (fun p => p.1 == model)).map (fun p => p.2)).getD model

/-- `AgentConfig` from the types module (`src/lib/types`); the fields the
invocation path reads. -/
structure AgentConfig where
  name : String
  provider : String
  model : String
  invoke_mode : Option String
  remote_host : Option String
  remote_user : Option String
  remote_project_root : Option String
deriving DecidableEq

/-- Claude CLI arguments for a remote invocation
(`src/lib/invoke.ts` lines 176-183). -/
def remoteClaudeArgs (model : String) (shouldReset : Bool) : List String :=
  ["--dangerously-skip-permissions"]
    ++ (if resolveClaudeModel model ≠ "" then ["--model", resolveClaudeModel model] else [])
    ++ (if ¬shouldReset then ["-c"] else [])

/-- Claude CLI arguments for a local invocation
(`src/lib/invoke.ts` lines 234-242). -/
def localClaudeArgs (model : String) (shouldReset : Bool) (message : String) :
    List String :=
  ["--dangerously-skip-permissions"]
    ++ (if resolveClaudeModel model ≠ "" then ["--model", resolveClaudeModel model] else [])
    ++ (if ¬shouldReset then ["-c"] else [])
    ++ ["-p", message]

/-- Codex CLI arguments (`src/lib/invoke.ts` lines 197-205). -/
def codexCliArgs (model : String) (shouldReset : Bool) (message : String) :
    List String :=
  ["exec"]
    ++ (if ¬shouldReset then ["resume", "--last"] else [])
    ++ (if resolveCodexModel model ≠ "" then ["--model", resolveCodexModel model] else [])
    ++ ["--skip-git-repo-check", "--dangerously-bypass-approvals-and-sandbox",
        "--json", message]

/-- What `invokeAgent` decides to do before any process is spawned. -/
inductive InvokeAction where
  | runRemote (host user remoteProjectRoot : String) (args : List String)
      (prompt : String)
  | runLocal (cmd : String) (args : List String)
  | configError (msg : String)
deriving DecidableEq

/-- The dispatch logic of `invokeAgent` (`src/lib/invoke.ts` lines 162-245):
with `invoke_mode === 'remote'`, the three remote connection fields are
checked first (JS truthiness: absent or empty is missing) and a descriptive
configuration error is thrown before anything is spawned when one is
missing; otherwise the provider (`agent.provider || 'anthropic'`) selects
the Codex or Claude local command line. -/
def invokeAgentAction (agent : AgentConfig) (agentId : String) (message : String)
    (shouldReset : Bool) : InvokeAction :=
  if agent.invoke_mode = some "remote" then
    if truthy agent.remote_host && truthy agent.remote_user &&
        truthy agent.remote_project_root then
      .runRemote (agent.remote_host.getD "") (agent.remote_user.getD "")
        (agent.remote_project_root.getD "")
        (remoteClaudeArgs agent.model shouldReset) message
    else
      .configError ("Agent " ++ agentId ++
        " has invoke_mode=remote but missing remote_host/remote_user/remote_project_root")
  else if (if agent.provider ≠ "" then agent.provider else "anthropic") = "openai" then
    .runLocal "codex" (codexCliArgs agent.model shouldReset message)
  else
    .runLocal "claude" (localClaudeArgs agent.model shouldReset message)

/-! ### Remote execution plan — `runCommandRemote`
(`src/lib/invoke.ts` lines 64-129) -/

/-- One subprocess spawn: command, argv, and what is piped to its stdin. -/
structure SpawnSpec where
  cmd : String
  args : List String
  stdinData : Option String
deriving DecidableEq

/-- The remote temp-file path `/tmp/tinyclaw-prompt-${Date.now()}.txt`. -/
def tmpFileName (now : Nat) : String :=
  "/tmp/tinyclaw-prompt-" ++ toString now ++ ".txt"

/-- The remote command string built at `src/lib/invoke.ts` lines 88-96:
five stages joined with ` && `; the prompt is referenced only through the
temp file (`$PROMPT`), never spliced in. -/
def remoteCmdString (remoteProjectRoot tmpFile : String)
    (claudeArgs : List String) : String :=
  String.intercalate " && "
    ["cd " ++ remoteProjectRoot,
     "source /etc/trading-signal-ai.env 2>/dev/null || true",
     "PROMPT=$(cat " ++ tmpFile ++ ")",
     "rm -f " ++ tmpFile,
     "claude " ++ String.intercalate " " claudeArgs ++ " -p \"$PROMPT\""]

/-- The two ssh spawns performed by `runCommandRemote`, in order: first the
prompt is written to the remote temp file through stdin (`cat > tmpFile`),
then the remote command is executed. -/
def runCommandRemotePlan (host user remoteProjectRoot : String)
    (claudeArgs : List String) (prompt : String) (now : Nat) : List SpawnSpec :=
  [⟨"ssh", [user ++ "@" ++ host, "cat > " ++ tmpFileName now], some prompt⟩,
   ⟨"ssh", [user ++ "@" ++ host,
      remoteCmdString remoteProjectRoot (tmpFileName now) claudeArgs], none⟩]

/-! ### Codex JSONL output parsing — `invokeAgent`, openai branch
(`src/lib/invoke.ts` lines 209-223) -/

/-- The `item` field of a parsed Codex output line; `text` is `none` when
the JSON object has no `text` field. -/
structure CodexItem where
  type : String
  text : Option String
deriving DecidableEq

/-- One parsed Codex output line; `item` is `none` when the JSON object has
no `item` field.  A line that fails `JSON.parse` is represented as `none`
at the use site. -/
structure CodexLine where
  type : String
  item : Option CodexItem
deriving DecidableEq

/-- The fallback response (`src/lib/invoke.ts` line 223). -/
def codexFallback : String :=
  "Sorry, I could not generate a response from Codex."

/-- One iteration of the parsing loop (`src/lib/invoke.ts` lines 212-221):
an unparseable line (`none`) is ignored; a parsed line overwrites the
response with `json.item.text` exactly when `json.type === 'item.completed'`
and `json.item?.type === 'agent_message'`.  The accumulator is the JS
`response` variable: `some ""` initially, `none` when a matching record had
no `text` field. -/
def codexFold (acc : Option String) (l : Option CodexLine) : Option String :=
  match l with
  | none => acc
  | some j =>
    match j.item with
    | none => acc
    | some it =>
      if j.type = "item.completed" ∧ it.type = "agent_message" then it.text
      else acc

/-- Does this (possibly unparseable) line overwrite the response? -/
def matchesAgentMessage : Option CodexLine → Bool
  | none => false
  | some j =>
    match j.item with
    | none => false
    | some it => j.type = "item.completed" ∧ it.type = "agent_message"

/-- The full parse of the Codex JSONL output (`src/lib/invoke.ts` lines
209-223): fold every line through the loop, then `return response ||
fallback` (JS: the fallback is returned when `response` is `undefined` or
empty). -/
def extractCodexResponse (lines : List (Option CodexLine)) : String :=
  match lines.foldl codexFold (some "") with
  | none => codexFallback
  | some s => if s = "" then codexFallback else s

/-! ## Discord notification sink — webhook helpers in
`src/plugins/trading-prompts/prompt-builder.ts` (lines 189-259) -/

/-- `MAX_MESSAGE_LENGTH = 1900` ("Discord limit is 2000, leave buffer"). -/
def MAX_MESSAGE_LENGTH : Nat := 1900

/-- `String.prototype.lastIndexOf(pat, fromIndex)`: the greatest start
position `i ≤ fromIndex` at which `pat` occurs, if any (JS returns `-1`
otherwise, modelled as `none`). -/
def jsLastIndexOf (s pat : List Char) (fromIdx : Nat) : Option Nat :=
  ((List.range (fromIdx + 1)).filter (matchAt s pat)).getLast?

/-- The split-point cascade of `sendDiscordChunked` (lines 239-244): the
last `"\n\n"`, else the last `"\n"`, else the last `" "`, at or before
position 1900; else position 1900 itself. -/
def splitIndexFor (remaining : List Char) : Nat :=
  match jsLastIndexOf remaining ['\n', '\n'] MAX_MESSAGE_LENGTH with
  | some i => i
  | none =>
    match jsLastIndexOf remaining ['\n'] MAX_MESSAGE_LENGTH with
    | some i => i
    | none =>
      match jsLastIndexOf remaining [' '] MAX_MESSAGE_LENGTH with
      | some i => i
      | none => MAX_MESSAGE_LENGTH

/-- The chunking `while` loop of `sendDiscordChunked` (lines 233-248),
fuelled: each pass pushes `remaining.substring(0, splitIndex)` and
continues with `remaining.substring(splitIndex).trim()`.  The loop
shortens `remaining` on every pass (proved below), so with fuel
`remaining.length` the fuel never runs out and the `fuel = 0` branch is
unreachable from `chunkMessage`. -/
def chunkMessageGo : Nat → List Char → List (List Char)
  | 0, remaining => if remaining.length = 0 then [] else [remaining]
  | fuel + 1, remaining =>
    if remaining.length = 0 then []
    else if remaining.length ≤ MAX_MESSAGE_LENGTH then [remaining]
    else
      remaining.take (splitIndexFor remaining) ::
        chunkMessageGo fuel (trimChars (remaining.drop (splitIndexFor remaining)))

/-- The chunk list produced by `sendDiscordChunked` for a given message. -/
def chunkMessage (message : List Char) : List (List Char) :=
  chunkMessageGo message.length message

/-- `sendDiscord` (lines 196-220): returns `false` without posting when the
webhook URL is unset (`""`); otherwise performs one POST whose body is
`message.substring(0, 2000)` and returns whether the POST succeeded
(`postOk` models `response.ok` and the catch branch).  The second component
lists the bodies posted. -/
def sendDiscord (webhookUrl : String) (postOk : Bool) (message : List Char) :
    Bool × List (List Char) :=
  if webhookUrl = "" then (false, [])
  else (postOk, [message.take 2000])

/-- `sendDiscordChunked` (lines 225-259): a message of at most 1900
characters is sent directly; a longer one is split by the chunk loop and
every chunk is posted in order, the overall result being the conjunction of
the per-chunk results. -/
def sendDiscordChunked (webhookUrl : String) (postOk : Bool)
    (message : List Char) : Bool × List (List Char) :=
  if message.length ≤ MAX_MESSAGE_LENGTH then sendDiscord webhookUrl postOk message
  else
    ((chunkMessage message).all (fun c => (sendDiscord webhookUrl postOk c).1),
     ((chunkMessage message).map (fun c => (sendDiscord webhookUrl postOk c).2)).flatten)

/-! ## Strategy activation — `buildActivatePrompt`
(`src/unnamed/part_004` lines 247-318) with the database helpers of
`src/plugins/trading-db/db.ts` -/

/-- Characters admitted by `STRATEGY_ID_RE = /^[a-zA-Z0-9_-]{1,50}$/`. -/
def isStrategyIdChar (c : Char) : Bool :=
  c.isAlpha || c.isDigit || c = '_' || c = '-'

/-- `validateStrategyId` (`src/unnamed/part_004` lines 39-44): `none` when
the id matches the regex, otherwise the error message. -/
def validateStrategyId (id : String) : Option String :=
  if 1 ≤ id.length && id.length ≤ 50 && id.data.all isStrategyIdChar then none
  else some "Invalid strategy_id. Use only letters, numbers, hyphens, underscores (max 50 chars)."

/-- A row of `strategist.strategies` as read by `getStrategy`
(`src/plugins/trading-db/db.ts` lines 130-153). -/
structure DbStrategy where
  status : String
  backtest_results : Option String
deriving DecidableEq

/-- `getStrategy` (`db.ts` lines 130-153): the row keyed by the id. -/
def getStrategy (db : List (String × DbStrategy)) (strategyId : String) :
    Option DbStrategy :=
  (db.find? (fun p => p.1 == strategyId)).map (fun p => p.2)

/-- `activateStrategy` (`db.ts` lines 159-165):
`UPDATE strategist.strategies SET status = 'paper' WHERE strategy_id = $1`. -/
def activateStrategy (db : List (String × DbStrategy)) (strategyId : String) :
    List (String × DbStrategy) :=
  db.map (fun p =>
    if p.1 == strategyId then (p.1, { p.2 with status := "paper" }) else p)

/-- The success-path prompt core (`src/unnamed/part_004` lines 311-315).
The real code passes this text (plus an optional backtest-quality warning
that has no effect on the strategies table) through `buildPrompt`, which
injects runtime context; only the fixed activation sentence is modelled. -/
def activatePromptText (strategyId : String) : String :=
  "Strategy '" ++ strategyId ++ "' has been activated for paper trading."

/-- Result of `buildActivatePrompt`: the strategies table afterwards, the
prompt, and the optional validation error. -/
structure ActivateResult where
  db : List (String × DbStrategy)
  prompt : String
  error : Option String
deriving DecidableEq

/-- `buildActivatePrompt` (`src/unnamed/part_004` lines 247-318): validate
the id against the regex, look the strategy up, reject ids whose strategy
is missing, already `paper`/`live`, or without backtest results (JS
truthiness: `!strategy.backtest_results`); only when every check passes is
`activateStrategy` executed.  `logConversation` and the backtest-quality
warning touch no strategies row and are not modelled. -/
def buildActivatePrompt (db : List (String × DbStrategy)) (strategyId : String) :
    ActivateResult :=
  match validateStrategyId strategyId with
  | some e => ⟨db, "", some e⟩
  | none =>
    match getStrategy db strategyId with
    | none =>
      ⟨db, "", some ("Strategy `" ++ strategyId ++
        "` not found. Use /strategies to see available strategies.")⟩
    | some strategy =>
      if strategy.status = "paper" ∨ strategy.status = "live" then
        ⟨db, "", some ("Strategy `" ++ strategyId ++
          "` is already active (status: " ++ strategy.status ++ ").")⟩
      else if truthy strategy.backtest_results = false then
        ⟨db, "", some ("Strategy `" ++ strategyId ++
          "` has no backtest results. Run `/research` first to validate it.")⟩
      else
        ⟨activateStrategy db strategyId, activatePromptText strategyId, none⟩

/-! ## Proofs -/

/-! ### Retry wrapper -/

theorem withRetryGo_success (fn : Nat → Except String α) (b : Nat) (v : α) :
    ∀ (k attempt remaining : Nat), k ≤ remaining →
    (∀ i, i < k → ∃ e, fn (attempt + i) = .error e ∧ isTransientError e = true) →
    fn (attempt + k) = .ok v →
    withRetryGo fn b attempt remaining =
      (.ok v, (List.range k).map (fun i => b * 2 ^ (attempt + i)), k + 1) := by
  intro k
  induction k with
  | zero =>
    intro attempt remaining _ _ hsucc
    rw [Nat.add_zero] at hsucc
    cases remaining with
    | zero => simp [withRetryGo, hsucc]
    | succ r => simp [withRetryGo, hsucc]
  | succ k ih =>
    intro attempt remaining hle hfail hsucc
    cases remaining with
    | zero => omega
    | succ r =>
      obtain ⟨e, he, htr⟩ := hfail 0 (Nat.succ_pos k)
      rw [Nat.add_zero] at he
      have hrest := ih (attempt + 1) r (Nat.le_of_succ_le_succ hle)
        (fun i hi => by
          obtain ⟨e', he', htr'⟩ := hfail (i + 1) (Nat.succ_lt_succ hi)
          refine ⟨e', ?_, htr'⟩
          have harith : attempt + 1 + i = attempt + (i + 1) := by omega
          rwa [harith])
        (by
          have harith : attempt + 1 + k = attempt + (k + 1) := by omega
          rwa [harith])
      have hlist : List.map (fun i => b * 2 ^ (attempt + i)) (List.range (k + 1)) =
          b * 2 ^ attempt ::
            List.map (fun i => b * 2 ^ (attempt + 1 + i)) (List.range k) := by
        rw [List.range_succ_eq_map, List.map_cons, List.map_map]
        refine congrArg₂ List.cons (by rw [Nat.add_zero]) ?_
        apply List.map_congr_left
        intro i _
        have harith : attempt + (i + 1) = attempt + 1 + i := by omega
        simp [Function.comp, harith]
      simp [withRetryGo, he, htr, hrest, hlist]

theorem withRetryGo_attempts_le (fn : Nat → Except String α) (b : Nat) :
    ∀ (remaining attempt : Nat),
    (withRetryGo fn b attempt remaining).2.2 ≤ remaining + 1 := by
  intro remaining
  induction remaining with
  | zero => intro attempt; simp [withRetryGo]
  | succ r ih =>
    intro attempt
    simp only [withRetryGo]
    cases h : fn attempt with
    | ok v => simp
    | error e =>
      by_cases htr : isTransientError e = true
      · simp only [htr, if_true]
        exact Nat.succ_le_succ (ih (attempt + 1))
      · simp only [htr]
        simp

/-- C1: if the operation fails with a transient-classified error on exactly
the first `k` attempts (`k < maxRetries`) and succeeds on attempt `k`,
`withRetry` returns the success value after sleeping exactly the delays
`baseDelayMs·2^0, …, baseDelayMs·2^(k-1)` in that order, making `k + 1`
attempts; and for every operation at most `maxRetries + 1` attempts are
ever made. -/
theorem withRetry_transient_then_success
    (fn : Nat → Except String α) (maxRetries baseDelayMs k : Nat) (v : α)
    (hk : k < maxRetries)
    (hfail : ∀ i, i < k → ∃ e, fn i = .error e ∧ isTransientError e = true)
    (hsucc : fn k = .ok v) :
    withRetry fn maxRetries baseDelayMs =
      (.ok v, (List.range k).map (fun i => baseDelayMs * 2 ^ i), k + 1) ∧
    ∀ (g : Nat → Except String α) (mr b : Nat),
      (withRetry g mr b).2.2 ≤ mr + 1 := by
  constructor
  · have h := withRetryGo_success fn baseDelayMs v k 0 maxRetries
      (Nat.le_of_lt hk)
      (fun i hi => by simpa using hfail i hi)
      (by simpa using hsucc)
    rw [withRetry, h]
    simp
  · intro g mr b
    exact withRetryGo_attempts_le g b mr 0

/-- Closed-form witness for `withRetry_transient_then_success`: an operation
that times out twice and then returns 42, run with `maxRetries = 3` and
`baseDelayMs = 5000`, yields 42 after delays 5000 and 10000 and 3 attempts. -/
theorem withRetry_transient_then_success_witness :
    withRetry (fun i => if i < 2 then .error "timeout" else .ok (42 : Nat)) 3 5000 =
      (.ok 42, [5000, 10000], 3) := by
  have h := (withRetry_transient_then_success
    (fun i => if i < 2 then .error "timeout" else .ok (42 : Nat)) 3 5000 2 42
    (by decide)
    (fun i hi => by
      interval_cases i <;> exact ⟨"timeout", rfl, by decide⟩)
    rfl).1
  rw [h]
  rfl

/-! ### Rate limiter -/

theorem evictExpired_none (now : Nat) (ts : List Nat)
    (h : ∀ t ∈ ts, now < t + RATE_LIMIT_WINDOW_MS) :
    evictExpired now ts = ts := by
  cases ts with
  | nil => rfl
  | cons t rest =>
    have hfresh := h t (List.mem_cons_self t rest)
    have hcond : ¬ (t + RATE_LIMIT_WINDOW_MS ≤ now) := by omega
    simp only [evictExpired, if_neg hcond]

theorem evictExpired_length_le (now : Nat) (ts : List Nat) :
    (evictExpired now ts).length ≤ ts.length := by
  induction ts with
  | nil => simp [evictExpired]
  | cons t rest ih =>
    simp only [evictExpired]
    split
    · exact Nat.le_succ_of_le ih
    · simp

/-- C2: for the sliding-window rate limiter (`max = 5`, window 60 s):
a call made while five admissions are recorded within the window returns
`false` and records nothing; once the oldest recorded admission has left
the window (with at most five recorded) the next call returns `true`; and
every accepting call appends exactly the current timestamp to the evicted
list. -/
theorem checkRateLimit_spec (now : Nat) (ts : List Nat) :
    (ts.length = 5 → (∀ t ∈ ts, now < t + RATE_LIMIT_WINDOW_MS) →
      checkRateLimit now ts = (false, ts)) ∧
    (∀ t rest, ts = t :: rest → t + RATE_LIMIT_WINDOW_MS ≤ now →
      ts.length ≤ 5 → (checkRateLimit now ts).1 = true) ∧
    ((checkRateLimit now ts).1 = true →
      (checkRateLimit now ts).2 = evictExpired now ts ++ [now]) := by
  refine ⟨?_, ?_, ?_⟩
  · intro hlen hfresh
    have hev : evictExpired now ts = ts := evictExpired_none now ts hfresh
    simp only [checkRateLimit, hev, hlen, RATE_LIMIT_MAX]
    simp
  · intro t rest hts hexp hlen
    subst hts
    have hev : evictExpired now (t :: rest) = evictExpired now rest := by
      simp only [evictExpired, if_pos hexp]
    have hle : (evictExpired now rest).length ≤ rest.length :=
      evictExpired_length_le now rest
    simp only [List.length_cons] at hlen
    have hlt : ¬ (RATE_LIMIT_MAX ≤ (evictExpired now (t :: rest)).length) := by
      rw [hev]
      simp only [RATE_LIMIT_MAX]
      omega
    simp only [checkRateLimit, if_neg hlt]
  · intro htrue
    by_cases hc : RATE_LIMIT_MAX ≤ (evictExpired now ts).length
    · exfalso
      simp only [checkRateLimit, if_pos hc] at htrue
      simp at htrue
    · simp only [checkRateLimit, if_neg hc]

/-- Closed-form witness for `checkRateLimit_spec`: with five admissions all
inside the window the sixth call at `now = 60000` is rejected and records
nothing; at `now = 70000` the oldest admission (timestamp 1) has left the
window, the call is accepted, and the post-call state appends 70000 to the
evicted list. -/
theorem checkRateLimit_spec_witness :
    checkRateLimit 60000 [1, 2, 3, 4, 5] = (false, [1, 2, 3, 4, 5]) ∧
    (checkRateLimit 70000 [1, 2, 3, 4, 5]).1 = true ∧
    (checkRateLimit 70000 [1, 2, 3, 4, 5]).2 =
      evictExpired 70000 [1, 2, 3, 4, 5] ++ [70000] := by
  refine ⟨(checkRateLimit_spec 60000 [1, 2, 3, 4, 5]).1 (by decide) (by decide),
    (checkRateLimit_spec 70000 [1, 2, 3, 4, 5]).2.1 1 [2, 3, 4, 5] rfl
      (by decide) (by decide), ?_⟩
  exact (checkRateLimit_spec 70000 [1, 2, 3, 4, 5]).2.2 (by decide)

/-! ### Heartbeat scheduler -/

/-- C4: on a heartbeat tick at `now`, an agent whose record is strictly
younger than its interval is skipped with its record unchanged; an agent at
least one interval old fires and its record is updated to the tick time —
and the update is the same whether the fire succeeded or failed. -/
theorem heartbeatTickAgent_spec (now last interval : Int) (fireOk : Bool) :
    (now - last < interval →
      heartbeatTickAgent now last interval fireOk = (false, last)) ∧
    (interval ≤ now - last →
      heartbeatTickAgent now last interval fireOk = (true, now)) ∧
    heartbeatTickAgent now last interval true =
      heartbeatTickAgent now last interval false := by
  refine ⟨fun h => ?_, fun h => ?_, rfl⟩
  · simp [heartbeatTickAgent, if_pos h]
  · simp [heartbeatTickAgent, if_neg (not_lt.mpr h)]

/-- Closed-form witness for `heartbeatTickAgent_spec`: with a 30 s interval
a record 29 s old does not fire on a tick at `now = 100`, while a record
31 s old fires (even on a failed fire) and the record becomes 100. -/
theorem heartbeatTickAgent_spec_witness :
    heartbeatTickAgent 100 71 30 true = (false, 71) ∧
    heartbeatTickAgent 100 69 30 false = (true, 100) := by
  exact ⟨(heartbeatTickAgent_spec 100 71 30 true).1 (by norm_num),
    (heartbeatTickAgent_spec 100 69 30 false).2.1 (by norm_num)⟩

/-! ### `runCommand` exit handling -/

/-- C6: `runCommand` resolves with the captured stdout on exit code 0;
on a non-zero code it rejects with the trimmed stderr when that is
non-empty, and with the generic `Command exited with code N` text when the
trimmed stderr is empty. -/
theorem runCommandClose_spec (code : Int) (stdout stderr : String) :
    (runCommandClose 0 stdout stderr = .ok stdout) ∧
    (code ≠ 0 → jsTrim stderr ≠ "" →
      runCommandClose code stdout stderr = .error (jsTrim stderr)) ∧
    (code ≠ 0 → jsTrim stderr = "" →
      runCommandClose code stdout stderr =
        .error ("Command exited with code " ++ toString code)) := by
  refine ⟨rfl, fun hc hs => ?_, fun hc hs => ?_⟩
  · simp [runCommandClose, if_neg hc, if_pos hs]
  · simp [runCommandClose, if_neg hc, hs]

/-- Closed-form witness for `runCommandClose_spec`: exit 0 yields the
stdout; exit 1 with stderr `" boom \n"` rejects with `"boom"`; exit 1 with
whitespace-only stderr rejects with the generic message. -/
theorem runCommandClose_spec_witness :
    runCommandClose 0 "out" "junk" = .ok "out" ∧
    runCommandClose 1 "out" " boom \n" = .error "boom" ∧
    runCommandClose 1 "out" " \n " = .error "Command exited with code 1" := by
  refine ⟨(runCommandClose_spec 0 "out" "junk").1, ?_, ?_⟩
  · have h := (runCommandClose_spec 1 "out" " boom \n").2.1 (by decide) (by decide)
    have ht : jsTrim " boom \n" = "boom" := by decide
    rw [h, ht]
  · have h := (runCommandClose_spec 1 "out" " \n ").2.2 (by decide) (by decide)
    rw [h]
    rfl

/-! ### Remote configuration validation -/

/-- C7: an agent with `invoke_mode = 'remote'` missing any of
`remote_host`, `remote_user`, `remote_project_root` (absent or empty)
produces the descriptive configuration error, and the decision is neither a
local nor a remote spawn — no process is started and no fallback agent is
used. -/
theorem invokeAgent_remote_missing_config (agent : AgentConfig)
    (agentId message : String) (shouldReset : Bool)
    (hmode : agent.invoke_mode = some "remote")
    (hmissing : truthy agent.remote_host = false ∨
      truthy agent.remote_user = false ∨
      truthy agent.remote_project_root = false) :
    invokeAgentAction agent agentId message shouldReset =
      .configError ("Agent " ++ agentId ++
        " has invoke_mode=remote but missing remote_host/remote_user/remote_project_root") ∧
    (∀ cmd args, invokeAgentAction agent agentId message shouldReset ≠
      .runLocal cmd args) ∧
    (∀ h u r args p, invokeAgentAction agent agentId message shouldReset ≠
      .runRemote h u r args p) := by
  have hcond : (truthy agent.remote_host && truthy agent.remote_user &&
      truthy agent.remote_project_root) = false := by
    rcases hmissing with h | h | h <;> simp [h]
  have heq : invokeAgentAction agent agentId message shouldReset =
      .configError ("Agent " ++ agentId ++
        " has invoke_mode=remote but missing remote_host/remote_user/remote_project_root") := by
    simp [invokeAgentAction, hmode, hcond]
  refine ⟨heq, fun cmd args => ?_, fun h u r args p => ?_⟩
  · rw [heq]; simp
  · rw [heq]; simp

/-- Closed-form witness for `invokeAgent_remote_missing_config`: a remote
agent with no `remote_host` yields the configuration error. -/
theorem invokeAgent_remote_missing_config_witness :
    invokeAgentAction
      ⟨"Researcher", "anthropic", "opus", some "remote", none, some "strategist",
        some "/opt/proj"⟩ "researcher" "msg" false =
    .configError ("Agent researcher" ++
      " has invoke_mode=remote but missing remote_host/remote_user/remote_project_root") := by
  have h := (invokeAgent_remote_missing_config
    ⟨"Researcher", "anthropic", "opus", some "remote", none, some "strategist",
      some "/opt/proj"⟩ "researcher" "msg" false rfl (Or.inl rfl)).1
  rw [h]
  rfl

/-! ### Remote payload hygiene -/

/-- C8: the message payload reaches the remote host only through the stdin
of the prompt-writing ssh spawn: the command and argv of both ssh spawns
built by `runCommandRemote` are identical for any two payloads (they are
built from the connection parameters, the temp-file name and the CLI
arguments only), and the payload appears exactly as the stdin of the first
spawn. -/
theorem runCommandRemote_payload_via_stdin (host user remoteProjectRoot : String)
    (claudeArgs : List String) (prompt other : String) (now : Nat) :
    ((runCommandRemotePlan host user remoteProjectRoot claudeArgs prompt now).map
        (fun s => (s.cmd, s.args)) =
      (runCommandRemotePlan host user remoteProjectRoot claudeArgs other now).map
        (fun s => (s.cmd, s.args))) ∧
    ((runCommandRemotePlan host user remoteProjectRoot claudeArgs prompt now).map
        (fun s => s.stdinData) = [some prompt, none]) :=
  ⟨rfl, rfl⟩

/-! ### Strategy activation -/

/-- C10: `buildActivatePrompt` leaves the strategies table untouched and
returns an empty prompt whenever it reports an error; conversely, when the
id matches the regex and names an existing strategy that is neither `paper`
nor `live` and has backtest results, the table is updated via
`activateStrategy` (status set to `paper`) with no error; and whenever no
error is reported, the table change is exactly `activateStrategy`. -/
theorem buildActivatePrompt_spec (db : List (String × DbStrategy))
    (strategyId : String) :
    ((buildActivatePrompt db strategyId).error.isSome = true →
      (buildActivatePrompt db strategyId).db = db ∧
      (buildActivatePrompt db strategyId).prompt = "") ∧
    (validateStrategyId strategyId = none →
      ∀ s, getStrategy db strategyId = some s →
        s.status ≠ "paper" → s.status ≠ "live" →
        truthy s.backtest_results = true →
        buildActivatePrompt db strategyId =
          ⟨activateStrategy db strategyId, activatePromptText strategyId, none⟩) ∧
    ((buildActivatePrompt db strategyId).error = none →
      (buildActivatePrompt db strategyId).db = activateStrategy db strategyId) := by
  refine ⟨?_, ?_, ?_⟩
  · intro herr
    cases hv : validateStrategyId strategyId with
    | some e => simp [buildActivatePrompt, hv]
    | none =>
      cases hg : getStrategy db strategyId with
      | none => simp [buildActivatePrompt, hv, hg]
      | some s =>
        by_cases hst : s.status = "paper" ∨ s.status = "live"
        · simp [buildActivatePrompt, hv, hg, hst]
        · by_cases hbt : truthy s.backtest_results = false
          · simp [buildActivatePrompt, hv, hg, hst, hbt]
          · have hbt2 : truthy s.backtest_results = true := by
              cases h : truthy s.backtest_results
              · exact absurd h hbt
              · rfl
            simp [buildActivatePrompt, hv, hg, hst, hbt2] at herr
  · intro hv s hg h1 h2 hbt
    have hst : ¬ (s.status = "paper" ∨ s.status = "live") := by
      rintro (h | h)
      · exact h1 h
      · exact h2 h
    simp [buildActivatePrompt, hv, hg, hst, hbt]
  · intro herr
    cases hv : validateStrategyId strategyId with
    | some e => simp [buildActivatePrompt, hv] at herr
    | none =>
      cases hg : getStrategy db strategyId with
      | none => simp [buildActivatePrompt, hv, hg] at herr
      | some s =>
        by_cases hst : s.status = "paper" ∨ s.status = "live"
        · simp [buildActivatePrompt, hv, hg, hst] at herr
        · by_cases hbt : truthy s.backtest_results = false
          · simp [buildActivatePrompt, hv, hg, hst, hbt] at herr
          · simp [buildActivatePrompt, hv, hg, hst, hbt]

/-- Closed-form witness for `buildActivatePrompt_spec`: an id with a space
fails validation and leaves the table unchanged with an empty prompt, while
activating the draft strategy `mom-1` (which has backtest results) flips
exactly its status to `paper` with no error. -/
theorem buildActivatePrompt_spec_witness :
    ((buildActivatePrompt [("mom-1", ⟨"draft", some "bt"⟩)] "bad id").db =
        [("mom-1", ⟨"draft", some "bt"⟩)] ∧
      (buildActivatePrompt [("mom-1", ⟨"draft", some "bt"⟩)] "bad id").prompt = "") ∧
    buildActivatePrompt [("mom-1", ⟨"draft", some "bt"⟩)] "mom-1" =
      ⟨[("mom-1", ⟨"paper", some "bt"⟩)], activatePromptText "mom-1", none⟩ := by
  constructor
  · exact (buildActivatePrompt_spec [("mom-1", ⟨"draft", some "bt"⟩)] "bad id").1
      (by decide)
  · have h := (buildActivatePrompt_spec [("mom-1", ⟨"draft", some "bt"⟩)] "mom-1").2.1
      (by decide) ⟨"draft", some "bt"⟩ (by decide) (by decide) (by decide) (by decide)
    rw [h]
    rfl

/-! ### Codex output parsing -/

theorem codexFold_no_match (acc : Option String) (l : Option CodexLine)
    (h : matchesAgentMessage l = false) : codexFold acc l = acc := by
  cases l with
  | none => rfl
  | some j =>
    cases hj : j.item with
    | none => simp [codexFold, hj]
    | some it =>
      simp only [matchesAgentMessage, hj, decide_eq_false_iff_not] at h
      simp [codexFold, hj, if_neg h]

theorem foldl_codexFold_no_match (ls : List (Option CodexLine)) :
    ∀ acc, (∀ l ∈ ls, matchesAgentMessage l = false) →
    ls.foldl codexFold acc = acc := by
  induction ls with
  | nil => intro acc _; rfl
  | cons l rest ih =>
    intro acc h
    rw [List.foldl_cons, codexFold_no_match acc l (h l (List.mem_cons_self l rest))]
    exact ih acc (fun x hx => h x (List.mem_cons_of_mem l hx))

theorem codexFold_match (acc : Option String) (j : CodexLine) (it : CodexItem)
    (h1 : j.type = "item.completed") (h2 : j.item = some it)
    (h3 : it.type = "agent_message") :
    codexFold acc (some j) = it.text := by
  simp [codexFold, h2, h1, h3]

/-- C5: the openai branch of `invokeAgent` parses stdout line by line,
ignoring every unparseable line (removing such a line never changes the
result), returns the `item.text` of the last parsed record with
`type = 'item.completed'` and `item.type = 'agent_message'`, and returns
the fixed fallback string when no line matches. -/
theorem extractCodexResponse_spec (pre post : List (Option CodexLine))
    (j : CodexLine) (it : CodexItem) (t : String) :
    (extractCodexResponse (pre ++ none :: post) =
      extractCodexResponse (pre ++ post)) ∧
    (j.type = "item.completed" → j.item = some it →
      it.type = "agent_message" → it.text = some t → t ≠ "" →
      (∀ l ∈ post, matchesAgentMessage l = false) →
      extractCodexResponse (pre ++ some j :: post) = t) ∧
    ((∀ l ∈ pre, matchesAgentMessage l = false) →
      extractCodexResponse pre = codexFallback) := by
  refine ⟨?_, ?_, ?_⟩
  · have hfold : (pre ++ none :: post).foldl codexFold (some "") =
        (pre ++ post).foldl codexFold (some "") := by
      rw [List.foldl_append, List.foldl_append, List.foldl_cons]
      rfl
    simp only [extractCodexResponse, hfold]
  · intro h1 h2 h3 h4 h5 hpost
    have hfold : (pre ++ some j :: post).foldl codexFold (some "") = some t := by
      rw [List.foldl_append, List.foldl_cons,
        codexFold_match _ j it h1 h2 h3, h4,
        foldl_codexFold_no_match post (some t) hpost]
    simp only [extractCodexResponse, hfold, if_neg h5]
  · intro hpre
    simp only [extractCodexResponse, foldl_codexFold_no_match pre (some "") hpre]
    simp

/-- Closed-form witness for `extractCodexResponse_spec`: a stream with one
unparseable line, an intermediate record, the agent message `"hi"`, and a
trailing non-matching record yields `"hi"`; a stream with no matching
record yields the fallback. -/
theorem extractCodexResponse_spec_witness :
    extractCodexResponse
      [none, some ⟨"item.started", some ⟨"command_execution", none⟩⟩,
       some ⟨"item.completed", some ⟨"agent_message", some "hi"⟩⟩,
       some ⟨"item.completed", some ⟨"reasoning", some "nope"⟩⟩] = "hi" ∧
    extractCodexResponse [none, some ⟨"turn.completed", none⟩] = codexFallback := by
  constructor
  · exact (extractCodexResponse_spec
      [none, some ⟨"item.started", some ⟨"command_execution", none⟩⟩]
      [some ⟨"item.completed", some ⟨"reasoning", some "nope"⟩⟩]
      ⟨"item.completed", some ⟨"agent_message", some "hi"⟩⟩
      ⟨"agent_message", some "hi"⟩ "hi").2.1 rfl rfl rfl rfl (by decide)
      (by decide)
  · exact (extractCodexResponse_spec [none, some ⟨"turn.completed", none⟩] []
      ⟨"x", none⟩ ⟨"x", none⟩ "x").2.2 (by decide)

/-! ### Team chain orchestrator -/

theorem runChainGo_counts (invoke : String → String → String) :
    ∀ (members : List String) (msg : String) (i : Nat), members ≠ [] →
    (runChainGo invoke members msg i).1.countP isStepDone = members.length ∧
    (runChainGo invoke members msg i).1.countP isHandoff = members.length - 1 ∧
    (runChainGo invoke members msg i).1.countP isChainEnded = 0 := by
  intro members
  induction members with
  | nil => intro msg i h; exact absurd rfl h
  | cons a tail ih =>
    intro msg i _
    cases tail with
    | nil =>
      simp [runChainGo, List.countP_cons, isStepDone, isHandoff, isChainEnded]
    | cons b rest =>
      obtain ⟨h1, h2, h3⟩ := ih (invoke a msg) (i + 1) (by simp)
      simp [runChainGo, List.countP_cons, isStepDone, isHandoff, isChainEnded,
        h1, h2, h3]

theorem runChainGo_stepDone_order (invoke : String → String → String) :
    ∀ (members : List String) (msg : String) (i : Nat),
    (runChainGo invoke members msg i).1.filterMap stepDoneOf =
      (members.enumFrom i).map (fun p => (p.2, p.1)) := by
  intro members
  induction members with
  | nil => intro msg i; simp [runChainGo]
  | cons a tail ih =>
    intro msg i
    cases tail with
    | nil => simp [runChainGo, List.enumFrom, stepDoneOf]
    | cons b rest =>
      simp [runChainGo, List.enumFrom, stepDoneOf, ih (invoke a msg) (i + 1)]

theorem runChainGo_handoff_order (invoke : String → String → String) :
    ∀ (members : List String) (msg : String) (i : Nat),
    (runChainGo invoke members msg i).1.filterMap handoffOf =
      ((members.zip members.tail).enumFrom i).map
        (fun p => (p.2.1, p.2.2, p.1)) := by
  intro members
  induction members with
  | nil => intro msg i; simp [runChainGo]
  | cons a tail ih =>
    intro msg i
    cases tail with
    | nil => simp [runChainGo, handoffOf]
    | cons b rest =>
      simp [runChainGo, List.enumFrom, handoffOf, List.zip,
        ih (invoke a msg) (i + 1)]

/-- C3: one chain execution over a team of `N ≥ 1` members emits exactly
`N` step-done events (member `j` at step `j`, in order), exactly `N − 1`
handoff events (carrying `(members[j], members[j+1], j)`, in order), and a
single chain-ended event listing all `N` members as the final event; a
single-member team therefore emits no handoff event. -/
theorem runChain_chain_events (invoke : String → String → String)
    (members : List String) (msg : String) (hne : members ≠ []) :
    (runChain invoke members msg).1.countP isStepDone = members.length ∧
    (runChain invoke members msg).1.countP isHandoff = members.length - 1 ∧
    (runChain invoke members msg).1.countP isChainEnded = 1 ∧
    (runChain invoke members msg).1.filterMap stepDoneOf =
      members.enum.map (fun p => (p.2, p.1)) ∧
    (runChain invoke members msg).1.filterMap handoffOf =
      (members.zip members.tail).enum.map (fun p => (p.2.1, p.2.2, p.1)) ∧
    (runChain invoke members msg).1.getLast? =
      some (.chainEnded members) := by
  obtain ⟨h1, h2, h3⟩ := runChainGo_counts invoke members msg 0 hne
  refine ⟨?_, ?_, ?_, ?_, ?_, ?_⟩ <;>
    simp [runChain, List.countP_append, List.filterMap_append, h1, h2, h3,
      isStepDone, isHandoff, isChainEnded, stepDoneOf, handoffOf,
      runChainGo_stepDone_order, runChainGo_handoff_order,
      List.getLast?_concat, List.enum]

/-- Closed-form witness for `runChain_chain_events`: the team `["a", "b"]`
run on input "X" emits two step-done events, one handoff `a → b` at step 0,
and ends with the chain-ended event listing both members. -/
theorem runChain_chain_events_witness :
    (runChain (fun a m => m ++ a) ["a", "b"] "X").1.countP isStepDone = 2 ∧
    (runChain (fun a m => m ++ a) ["a", "b"] "X").1.countP isHandoff = 1 ∧
    (runChain (fun a m => m ++ a) ["a", "b"] "X").1.getLast? =
      some (.chainEnded ["a", "b"]) := by
  have h := runChain_chain_events (fun a m => m ++ a) ["a", "b"] "X" (by simp)
  exact ⟨h.1, h.2.1, h.2.2.2.2.2⟩

/-! ### Discord notification sink -/

theorem trimChars_sublist (l : List Char) : List.Sublist (trimChars l) l := by
  have h1 : List.Sublist
      (List.dropWhile Char.isWhitespace
        (List.dropWhile Char.isWhitespace l).reverse).reverse
      (List.dropWhile Char.isWhitespace l).reverse.reverse :=
    (List.dropWhile_sublist _).reverse
  rw [List.reverse_reverse] at h1
  exact h1.trans (List.dropWhile_sublist _)

theorem trimChars_length_le (l : List Char) : (trimChars l).length ≤ l.length :=
  (trimChars_sublist l).length_le

theorem trimChars_cons_ws (c : Char) (t : List Char)
    (h : c.isWhitespace = true) : trimChars (c :: t) = trimChars t := by
  simp [trimChars, List.dropWhile_cons, h]

theorem jsLastIndexOf_spec (s pat : List Char) (fr i : Nat)
    (h : jsLastIndexOf s pat fr = some i) :
    i ≤ fr ∧ matchAt s pat i = true := by
  unfold jsLastIndexOf at h
  have hmem := List.mem_of_mem_getLast? h
  rw [List.mem_filter] at hmem
  obtain ⟨hr, hm⟩ := hmem
  exact ⟨Nat.lt_succ_iff.mp (List.mem_range.mp hr), hm⟩

theorem splitIndexFor_le (r : List Char) :
    splitIndexFor r ≤ MAX_MESSAGE_LENGTH := by
  unfold splitIndexFor
  rcases h2 : jsLastIndexOf r ['\n', '\n'] MAX_MESSAGE_LENGTH with _ | i
  · simp only
    rcases h1 : jsLastIndexOf r ['\n'] MAX_MESSAGE_LENGTH with _ | i
    · simp only
      rcases h0 : jsLastIndexOf r [' '] MAX_MESSAGE_LENGTH with _ | i
      · simp
      · simpa using (jsLastIndexOf_spec _ _ _ _ h0).1
    · simpa using (jsLastIndexOf_spec _ _ _ _ h1).1
  · simpa using (jsLastIndexOf_spec _ _ _ _ h2).1

theorem splitIndexFor_zero (r : List Char) (h : splitIndexFor r = 0) :
    ∃ c t, r = c :: t ∧ c.isWhitespace = true := by
  have key : ∀ (p : Char) (ptail : List Char), p.isWhitespace = true →
      matchAt r (p :: ptail) 0 = true →
      ∃ d t, r = d :: t ∧ d.isWhitespace = true := by
    intro p ptail hws hm
    rw [matchAt, List.drop_zero] at hm
    obtain ⟨rest, hrest⟩ := List.isPrefixOf_iff_prefix.mp hm
    exact ⟨p, ptail ++ rest, by rw [← hrest]; simp, hws⟩
  unfold splitIndexFor at h
  rcases h2 : jsLastIndexOf r ['\n', '\n'] MAX_MESSAGE_LENGTH with _ | i
  · rw [h2] at h
    simp only at h
    rcases h1 : jsLastIndexOf r ['\n'] MAX_MESSAGE_LENGTH with _ | i
    · rw [h1] at h
      simp only at h
      rcases h0 : jsLastIndexOf r [' '] MAX_MESSAGE_LENGTH with _ | i
      · rw [h0] at h
        simp [MAX_MESSAGE_LENGTH] at h
      · rw [h0] at h
        simp only at h
        subst h
        exact key ' ' [] (by decide) (jsLastIndexOf_spec _ _ _ _ h0).2
    · rw [h1] at h
      simp only at h
      subst h
      exact key '\n' [] (by decide) (jsLastIndexOf_spec _ _ _ _ h1).2
  · rw [h2] at h
    simp only at h
    subst h
    exact key '\n' ['\n'] (by decide) (jsLastIndexOf_spec _ _ _ _ h2).2

theorem chunkNext_length_lt (r : List Char) (h : MAX_MESSAGE_LENGTH < r.length) :
    (trimChars (r.drop (splitIndexFor r))).length < r.length := by
  by_cases h0 : splitIndexFor r = 0
  · obtain ⟨c, t, hr, hws⟩ := splitIndexFor_zero r h0
    rw [h0, List.drop_zero, hr, trimChars_cons_ws c t hws]
    calc (trimChars t).length ≤ t.length := trimChars_length_le t
      _ < (c :: t).length := by simp
  · have hpos : 0 < splitIndexFor r := Nat.pos_of_ne_zero h0
    calc (trimChars (r.drop (splitIndexFor r))).length
        ≤ (r.drop (splitIndexFor r)).length := trimChars_length_le _
      _ = r.length - splitIndexFor r := by rw [List.length_drop]
      _ < r.length := Nat.sub_lt (Nat.lt_of_le_of_lt (Nat.zero_le _) h) hpos

theorem chunkMessageGo_zero (r : List Char) :
    chunkMessageGo 0 r = if r.length = 0 then [] else [r] := rfl

theorem chunkMessageGo_succ (f : Nat) (r : List Char) :
    chunkMessageGo (f + 1) r =
      if r.length = 0 then []
      else if r.length ≤ MAX_MESSAGE_LENGTH then [r]
      else r.take (splitIndexFor r) ::
        chunkMessageGo f (trimChars (r.drop (splitIndexFor r))) := rfl

set_option maxRecDepth 4000 in
theorem chunkMessageGo_spec : ∀ (fuel : Nat) (r : List Char), r.length ≤ fuel →
    (∀ c ∈ chunkMessageGo fuel r, c.length ≤ MAX_MESSAGE_LENGTH) ∧
    List.Sublist (chunkMessageGo fuel r).flatten r := by
  intro fuel
  induction fuel with
  | zero =>
    intro r hr
    have h0 : r.length = 0 := Nat.le_zero.mp hr
    simp [chunkMessageGo_zero, h0]
  | succ f ih =>
    intro r hr
    by_cases h0 : r.length = 0
    · simp [chunkMessageGo_succ, h0]
    · by_cases h1 : r.length ≤ MAX_MESSAGE_LENGTH
      · constructor
        · intro c hc
          simp only [chunkMessageGo_succ, if_neg h0, if_pos h1,
            List.mem_singleton] at hc
          subst hc
          exact h1
        · simp [chunkMessageGo_succ, h0, h1]
      · have hlt := chunkNext_length_lt r (Nat.lt_of_not_le h1)
        have hnext : (trimChars (r.drop (splitIndexFor r))).length ≤ f := by
          omega
        obtain ⟨ihb, ihs⟩ := ih _ hnext
        constructor
        · intro c hc
          simp only [chunkMessageGo_succ, if_neg h0, if_neg h1,
            List.mem_cons] at hc
          rcases hc with hc | hc
          · subst hc
            calc (r.take (splitIndexFor r)).length
                ≤ splitIndexFor r := by
                  rw [List.length_take]; exact Nat.min_le_left _ _
              _ ≤ MAX_MESSAGE_LENGTH := splitIndexFor_le r
          · exact ihb c hc
        · simp only [chunkMessageGo_succ, if_neg h0, if_neg h1,
            List.flatten_cons]
          have h2 : List.Sublist
              (chunkMessageGo f (trimChars (r.drop (splitIndexFor r)))).flatten
              (r.drop (splitIndexFor r)) :=
            ihs.trans (trimChars_sublist _)
          have h3 := List.Sublist.append
            (List.Sublist.refl (r.take (splitIndexFor r))) h2
          rw [List.take_append_drop] at h3
          exact h3

/-- C9: every notification post is length-capped.  `sendDiscord` posts
nothing and returns `false` when the webhook URL is unset, otherwise posts
exactly one body, `message.substring(0, 2000)`, and returns `false`
(without throwing) when the POST fails.  `sendDiscordChunked` sends a
message of at most 1900 characters as a single post and splits a longer
one into ordered chunks of at most 1900 characters each, posting them all;
the concatenation of the chunks is a subsequence of the message (only
whitespace at the split points is dropped). -/
theorem sendDiscord_spec (webhookUrl : String) (postOk : Bool)
    (message : List Char) :
    ((sendDiscord webhookUrl postOk message).2 =
      if webhookUrl = "" then [] else [message.take 2000]) ∧
    (sendDiscord webhookUrl postOk message).2.length ≤ 1 ∧
    (∀ c ∈ (sendDiscord webhookUrl postOk message).2, c.length ≤ 2000) ∧
    sendDiscord "" postOk message = (false, []) ∧
    (sendDiscord webhookUrl false message).1 = false ∧
    (∀ c ∈ chunkMessage message, c.length ≤ MAX_MESSAGE_LENGTH) ∧
    ((sendDiscordChunked webhookUrl postOk message).2 =
      if webhookUrl = "" then []
      else if message.length ≤ MAX_MESSAGE_LENGTH then [message.take 2000]
      else chunkMessage message) ∧
    List.Sublist (chunkMessage message).flatten message := by
  have hchunk := chunkMessageGo_spec message.length message (Nat.le_refl _)
  have hsing : ∀ l : List (List Char), (l.map (fun c => [c])).flatten = l := by
    intro l
    induction l with
    | nil => rfl
    | cons a t iht => simp [iht]
  refine ⟨?_, ?_, ?_, ?_, ?_, hchunk.1, ?_, hchunk.2⟩
  · by_cases hw : webhookUrl = "" <;> simp [sendDiscord, hw]
  · by_cases hw : webhookUrl = "" <;> simp [sendDiscord, hw]
  · intro c hc
    by_cases hw : webhookUrl = ""
    · simp [sendDiscord, hw] at hc
    · simp only [sendDiscord, if_neg hw, List.mem_singleton] at hc
      subst hc
      rw [List.length_take]
      exact Nat.min_le_left _ _
  · simp [sendDiscord]
  · by_cases hw : webhookUrl = "" <;> simp [sendDiscord, hw]
  · by_cases hlen : message.length ≤ MAX_MESSAGE_LENGTH
    · by_cases hw : webhookUrl = "" <;>
        simp [sendDiscordChunked, sendDiscord, hlen, hw]
    · by_cases hw : webhookUrl = ""
      · simp [sendDiscordChunked, sendDiscord, hlen, hw]
      · have hmap : (chunkMessage message).map
            (fun c => (sendDiscord webhookUrl postOk c).2) =
            (chunkMessage message).map (fun c => [c]) := by
          apply List.map_congr_left
          intro c hc
          have hle : c.length ≤ 2000 :=
            Nat.le_trans (hchunk.1 c hc) (by simp [MAX_MESSAGE_LENGTH])
          simp [sendDiscord, hw, List.take_of_length_le hle]
        simp only [sendDiscordChunked, if_neg hlen, hmap, hsing]
        simp [hw, hlen]

/-- Closed-form witness for `sendDiscord_spec`: a short message is posted
once, untruncated and within the cap; with the webhook unset nothing is
posted and the result is `false`. -/
theorem sendDiscord_spec_witness :
    ("hello".data.take 2000).length ≤ 2000 ∧
    (sendDiscordChunked "https://example" true "hello".data).2 =
      ["hello".data.take 2000] ∧
    sendDiscord "" true "hello".data = (false, []) := by
  have h := sendDiscord_spec "https://example" true "hello".data
  refine ⟨h.2.2.1 ("hello".data.take 2000) ?_, ?_, (sendDiscord_spec "" true "hello".data).2.2.2.1⟩
  · rw [h.1]
    simp
  · rw [h.2.2.2.2.2.2.1]
    simp [MAX_MESSAGE_LENGTH]

end Tinyclaw
